import Mathlib

/-!
# Verification of the request/response correlation core of `bridge_server/server.js`

This file gives a shallow embedding of the `BridgeServer` class of
`bridge_server/server.js` and proves properties of its correlation engine.

Modelling conventions (each is noted again at the definition it concerns):

* JavaScript objects (commands, outbound messages, replies, result values) are
  association lists of `String`-keyed fields in insertion order, with JS
  property-assignment semantics (`assocSet`).
* The `Map` `pendingRequests` is an association list from request identifier to
  the stored resolver; a resolver is identified by the index of the caller it
  belongs to (`executeCommand` invocations are numbered in order).
* `uuidv4()` is modelled by a monotone counter: identifiers are natural-number
  tokens handed out in order.  The `uuid` library's guarantee that distinct
  calls return distinct values for the lifetime of the process is represented
  by the freshness of the counter.
* Calling a stored `resolve` function is modelled by appending the pair
  (caller index, value) to a log of delivered results; a promise caller
  observes exactly the values logged for its index.
* `setTimeout` is modelled by a `timerFire` event that the JS runtime delivers
  at some later point of the trace; the runtime always fires an armed timer.
* The event-loop atomicity of each handler body (connection, close, message,
  `executeCommand`, timer callback) is modelled by each event being one step
  of a transition function over the server state.
-/

namespace OllamaBrowl

/-- A JSON-like field value exchanged over the bridge: a string, a boolean, or
a numeric token (used for the correlation identifiers of the model). -/
inductive JVal : Type
  | s : String → JVal
  | b : Bool → JVal
  | n : Nat → JVal
deriving DecidableEq

/-- A JavaScript object, as an association list of fields in insertion order. -/
abbrev Obj : Type := List (String × JVal)

/-- Property read `m[k]`: the value at the first occurrence of key `k`. -/
def assocGet {α β : Type} [DecidableEq α] (m : List (α × β)) (k : α) : Option β :=
  match m with
  | [] => none
  | p :: rest => if p.1 = k then some p.2 else assocGet rest k

/-- Property assignment `m[k] = v` (also JS object-spread assignment and
`Map.prototype.set`): replace the value at an existing key in place, otherwise
append the new field at the end. -/
def assocSet {α β : Type} [DecidableEq α] (m : List (α × β)) (k : α) (v : β) :
    List (α × β) :=
  match m with
  | [] => [(k, v)]
  | p :: rest => if p.1 = k then (k, v) :: rest else p :: assocSet rest k v

/-- `Map.prototype.delete`: remove the entries stored under key `k`. -/
def assocDelete {α β : Type} [DecidableEq α] (m : List (α × β)) (k : α) :
    List (α × β) :=
  match m with
  | [] => []
  | p :: rest => if p.1 = k then assocDelete rest k else p :: assocDelete rest k

/-- The keys of an association list. -/
def assocKeys {α β : Type} (m : List (α × β)) : List α := m.map Prod.fst

/-- The value `{ success: false, error: 'Extension not connected' }` resolved by
`executeCommand` when `this.extensionSocket` is null (server.js line 90). -/
def notConnectedResult : Obj :=
  [("success", JVal.b false), ("error", JVal.s "Extension not connected")]

/-- The value `{ success: false, error: 'Extension disconnected' }` used to
reject every pending request in the `close` handler (server.js line 76). -/
def disconnectedResult : Obj :=
  [("success", JVal.b false), ("error", JVal.s "Extension disconnected")]

/-- The value `{ success: false, error: 'Request timeout' }` resolved by the
per-request timer (server.js line 107). -/
def timeoutResult : Obj :=
  [("success", JVal.b false), ("error", JVal.s "Request timeout")]

/-- The value `{ success: false, error: 'Failed to send to extension' }`
resolved when `extensionSocket.send` throws (server.js line 116). -/
def sendFailedResult : Obj :=
  [("success", JVal.b false), ("error", JVal.s "Failed to send to extension")]

/-- The outbound message `{ id, ...command }` built by `executeCommand`
(server.js lines 95-98): an object literal starting from the shorthand field
`id` and then assigning every field of `command` in order, so a field of
`command` named `id` overwrites the injected identifier. -/
def outboundMessage (idv : Nat) (command : Obj) : Obj :=
  command.foldl (fun acc p => assocSet acc p.1 p.2) [("id", JVal.n idv)]

/-- The delay in milliseconds passed to `setTimeout` by `executeCommand`
(server.js line 109): the literal `30000`, for every command — the code never
reads a `timeout` field of the command. -/
def timerDelayMs (_command : Obj) : Nat := 30000

/-- The deadline duration described by the specification: the caller-supplied
`timeout` field of the request, defaulting to 30 seconds when the request
gives none.  This definition follows the spec's words and exists only to be
compared with `timerDelayMs`, which is translated from the source. -/
def specTimerDelayMs (command : Obj) : Nat :=
  match assocGet command "timeout" with
  | some (JVal.n t) => t
  | _ => 30000

/-- The mutable state of a `BridgeServer` instance.

* `extensionSocket` — `this.extensionSocket`: `none` models `null`, and
  `some k` models a reference to the `k`-th WebSocket ever accepted.
* `socketCount` — how many `connection` events have occurred (used only to
  name sockets; not a field of the JS object).
* `nextUuid` — the counter behind `uuidv4()` (see the header comment).
* `pendingRequests` — `this.pendingRequests`, a map from identifier to the
  stored resolver, the resolver being the index of its `executeCommand` call.
* `results` — the log of resolver invocations: `(caller index, value)` in
  call order (not a field of the JS object; it records what callers receive).
* `sent` — the log of payloads passed to `extensionSocket.send`.
* `nextWaiter` — how many `executeCommand` calls have occurred. -/
structure ServerState : Type where
  extensionSocket : Option Nat
  socketCount : Nat
  nextUuid : Nat
  pendingRequests : List (Nat × Nat)
  results : List (Nat × Obj)
  sent : List Obj
  nextWaiter : Nat
deriving DecidableEq

/-- The events the JS event loop can deliver to a `BridgeServer`.

* `connection` — the `wss.on('connection')` handler runs for a new socket.
* `close k` — the `ws.on('close')` handler of the `k`-th accepted socket runs.
* `submit cmd sendFails` — `executeCommand cmd` runs (via POST `/execute`);
  `sendFails` tells whether `extensionSocket.send` would throw.
* `message msg` — a parsed WebSocket message reaches
  `handleExtensionMessage`.
* `timerFire i` — the `setTimeout` callback armed for identifier `i` runs. -/
inductive Event : Type
  | connection : Event
  | close : Nat → Event
  | submit : Obj → Bool → Event
  | message : Obj → Event
  | timerFire : Nat → Event
deriving DecidableEq

/-- One atomic step of the server: the body of the handler that the event
loop runs for the given event, translated clause by clause from server.js.

* `connection` (lines 58-60): `this.extensionSocket = ws`, unconditionally —
  a new socket replaces whatever was referenced before.
* `close k` (lines 71-79): `this.extensionSocket = null`, then every stored
  resolver is called with `disconnectedResult`, then the map is cleared.
  The handler body never compares `ws` with `this.extensionSocket`, so the
  same runs when an already-replaced old socket closes.
* `submit` (lines 87-118): if the socket reference is null, resolve
  immediately with `notConnectedResult`; otherwise allocate `id`, build
  `{id, ...command}`, store the resolver under `id`, arm the timer (the
  runtime will deliver `timerFire id` later), and attempt the send; if the
  send throws, delete the entry and resolve with `sendFailedResult`.
* `message msg` (lines 121-128): read `msg.id`; if the map has it, remove
  the entry and call its resolver with the whole `msg`.
* `timerFire i` (lines 104-109): if the map still has `i`, remove the entry
  and resolve with `timeoutResult`. -/
def step (s : ServerState) : Event → ServerState
  | Event.connection =>
      { s with extensionSocket := some s.socketCount,
               socketCount := s.socketCount + 1 }
  | Event.close _ =>
      { s with extensionSocket := none,
               results := s.results ++
                 s.pendingRequests.map (fun p => (p.2, disconnectedResult)),
               pendingRequests := [] }
  | Event.submit command sendFails =>
      match s.extensionSocket with
      | none =>
          { s with results := s.results ++ [(s.nextWaiter, notConnectedResult)],
                   nextWaiter := s.nextWaiter + 1 }
      | some _ =>
          if sendFails then
            { s with nextUuid := s.nextUuid + 1,
                     nextWaiter := s.nextWaiter + 1,
                     pendingRequests :=
                       assocDelete
                         (assocSet s.pendingRequests s.nextUuid s.nextWaiter)
                         s.nextUuid,
                     results := s.results ++ [(s.nextWaiter, sendFailedResult)] }
          else
            { s with nextUuid := s.nextUuid + 1,
                     nextWaiter := s.nextWaiter + 1,
                     pendingRequests :=
                       assocSet s.pendingRequests s.nextUuid s.nextWaiter,
                     sent := s.sent ++ [outboundMessage s.nextUuid command] }
  | Event.message msg =>
      match assocGet msg "id" with
      | some (JVal.n idv) =>
          match assocGet s.pendingRequests idv with
          | some w =>
              { s with pendingRequests := assocDelete s.pendingRequests idv,
                       results := s.results ++ [(w, msg)] }
          | none => s
      | _ => s
  | Event.timerFire idv =>
      match assocGet s.pendingRequests idv with
      | some w =>
          { s with pendingRequests := assocDelete s.pendingRequests idv,
                   results := s.results ++ [(w, timeoutResult)] }
      | none => s

/-- The state of a freshly constructed `BridgeServer` (server.js lines 7-15):
no socket, empty map, no calls made yet. -/
def initState : ServerState :=
  { extensionSocket := none, socketCount := 0, nextUuid := 0,
    pendingRequests := [], results := [], sent := [], nextWaiter := 0 }

/-- Run a list of events from a given state. -/
def runFrom (s : ServerState) (tr : List Event) : ServerState :=
  tr.foldl step s

/-- Run a list of events from the initial state. -/
def run (tr : List Event) : ServerState :=
  runFrom initState tr

/-- How many results have been delivered to the caller of the `w`-th
`executeCommand` call. -/
def countResults (rs : List (Nat × Obj)) (w : Nat) : Nat :=
  rs.countP (fun r => r.1 == w)

/-- How many entries of the correlation table store the resolver of the
`w`-th `executeCommand` call. -/
def countWaiter (m : List (Nat × Nat)) (w : Nat) : Nat :=
  m.countP (fun p => p.2 == w)

/-! ## Association-list lemmas -/

theorem mem_assocKeys {α β : Type} {m : List (α × β)} {k : α} :
    k ∈ assocKeys m ↔ ∃ v, (k, v) ∈ m := by
  constructor
  · intro h
    rcases List.mem_map.mp h with ⟨p, hp, hk⟩
    exact ⟨p.2, by simpa [← hk] using hp⟩
  · rintro ⟨v, hv⟩
    exact List.mem_map.mpr ⟨(k, v), hv, rfl⟩

theorem assocGet_eq_none_of_not_mem {α β : Type} [DecidableEq α]
    {m : List (α × β)} {k : α} (h : k ∉ assocKeys m) : assocGet m k = none := by
  induction m with
  | nil => rfl
  | cons p rest ih =>
    rw [assocKeys, List.map_cons, List.mem_cons] at h
    push_neg at h
    rw [assocGet, if_neg (Ne.symm h.1)]
    exact ih h.2

theorem assocGet_mem {α β : Type} [DecidableEq α]
    {m : List (α × β)} {k : α} {v : β} (h : assocGet m k = some v) : (k, v) ∈ m := by
  induction m with
  | nil => simp [assocGet] at h
  | cons p rest ih =>
    rw [assocGet] at h
    by_cases hk : p.1 = k
    · rw [if_pos hk] at h
      cases p with
      | mk a b =>
        cases h
        subst hk
        exact List.mem_cons_self _ _
    · rw [if_neg hk] at h
      exact List.mem_cons_of_mem _ (ih h)

theorem assocGet_of_mem_of_nodup {α β : Type} [DecidableEq α]
    {m : List (α × β)} {k : α} {v : β}
    (hnd : (assocKeys m).Nodup) (h : (k, v) ∈ m) : assocGet m k = some v := by
  induction m with
  | nil => simp at h
  | cons p rest ih =>
    rw [assocKeys, List.map_cons, List.nodup_cons] at hnd
    rcases List.mem_cons.mp h with h1 | h1
    · rw [← h1, assocGet, if_pos rfl]
    · have hk : p.1 ≠ k := by
        intro hc
        exact hnd.1 (hc ▸ mem_assocKeys.mpr ⟨v, h1⟩)
      rw [assocGet, if_neg hk]
      exact ih hnd.2 h1

theorem assocSet_of_not_mem {α β : Type} [DecidableEq α]
    {m : List (α × β)} {k : α} (v : β) (h : k ∉ assocKeys m) :
    assocSet m k v = m ++ [(k, v)] := by
  induction m with
  | nil => rfl
  | cons p rest ih =>
    rw [assocKeys, List.map_cons, List.mem_cons] at h
    push_neg at h
    rw [assocSet, if_neg (Ne.symm h.1), ih h.2, List.cons_append]

theorem mem_assocSet {α β : Type} [DecidableEq α]
    {m : List (α × β)} {k : α} {v : β} {p : α × β} (h : p ∈ assocSet m k v) :
    p ∈ m ∨ p = (k, v) := by
  induction m with
  | nil => simpa [assocSet] using h
  | cons q rest ih =>
    rw [assocSet] at h
    by_cases hq : q.1 = k
    · rw [if_pos hq] at h
      rcases List.mem_cons.mp h with h1 | h1
      · exact Or.inr h1
      · exact Or.inl (List.mem_cons_of_mem _ h1)
    · rw [if_neg hq] at h
      rcases List.mem_cons.mp h with h1 | h1
      · exact Or.inl (h1 ▸ List.mem_cons_self _ _)
      · rcases ih h1 with h2 | h2
        · exact Or.inl (List.mem_cons_of_mem _ h2)
        · exact Or.inr h2

theorem assocDelete_of_not_mem {α β : Type} [DecidableEq α]
    {m : List (α × β)} {k : α} (h : k ∉ assocKeys m) : assocDelete m k = m := by
  induction m with
  | nil => rfl
  | cons p rest ih =>
    rw [assocKeys, List.map_cons, List.mem_cons] at h
    push_neg at h
    rw [assocDelete, if_neg (Ne.symm h.1), ih h.2]

theorem assocDelete_sublist {α β : Type} [DecidableEq α]
    (m : List (α × β)) (k : α) : (assocDelete m k).Sublist m := by
  induction m with
  | nil => simp [assocDelete]
  | cons p rest ih =>
    rw [assocDelete]
    by_cases hp : p.1 = k
    · rw [if_pos hp]
      exact ih.cons p
    · rw [if_neg hp]
      exact ih.cons₂ p

theorem mem_of_mem_assocDelete {α β : Type} [DecidableEq α]
    {m : List (α × β)} {k : α} {p : α × β} (h : p ∈ assocDelete m k) : p ∈ m :=
  (assocDelete_sublist m k).mem h

theorem assocGet_assocDelete_self {α β : Type} [DecidableEq α]
    (m : List (α × β)) (k : α) : assocGet (assocDelete m k) k = none := by
  induction m with
  | nil => rfl
  | cons p rest ih =>
    rw [assocDelete]
    by_cases hp : p.1 = k
    · rw [if_pos hp]
      exact ih
    · rw [if_neg hp, assocGet, if_neg hp]
      exact ih

theorem assocDelete_assocSet_fresh {α β : Type} [DecidableEq α]
    {m : List (α × β)} {k : α} (v : β) (h : k ∉ assocKeys m) :
    assocDelete (assocSet m k v) k = m := by
  induction m with
  | nil => simp [assocSet, assocDelete]
  | cons p rest ih =>
    rw [assocKeys, List.map_cons, List.mem_cons] at h
    push_neg at h
    rw [assocSet, if_neg (Ne.symm h.1), assocDelete, if_neg (Ne.symm h.1), ih h.2]

theorem nodup_keys_assocDelete {α β : Type} [DecidableEq α]
    {m : List (α × β)} {k : α} (h : (assocKeys m).Nodup) :
    (assocKeys (assocDelete m k)).Nodup :=
  List.Nodup.sublist ((assocDelete_sublist m k).map Prod.fst) h

theorem nodup_keys_append_fresh {α β : Type}
    {m : List (α × β)} {k : α} {v : β}
    (hnd : (assocKeys m).Nodup) (h : k ∉ assocKeys m) :
    (assocKeys (m ++ [(k, v)])).Nodup := by
  rw [assocKeys, List.map_append]
  exact List.Nodup.append hnd (List.nodup_singleton k)
    (by simpa [List.disjoint_singleton, assocKeys] using h)

/-! ## Counting lemmas -/

theorem countResults_append (a b : List (Nat × Obj)) (w : Nat) :
    countResults (a ++ b) w = countResults a w + countResults b w :=
  List.countP_append _ _ _

theorem countResults_singleton (w' w : Nat) (r : Obj) :
    countResults [(w', r)] w = if w' = w then 1 else 0 := by
  simp [countResults, List.countP_cons]

theorem countWaiter_eq_zero {m : List (Nat × Nat)} {w : Nat} :
    countWaiter m w = 0 ↔ ∀ p ∈ m, p.2 ≠ w := by
  simp [countWaiter, List.countP_eq_zero]

theorem countWaiter_pos_of_mem {m : List (Nat × Nat)} {i w : Nat}
    (h : (i, w) ∈ m) : 0 < countWaiter m w :=
  List.countP_pos_iff.mpr ⟨(i, w), h, by simp⟩

theorem countWaiter_append (a b : List (Nat × Nat)) (w : Nat) :
    countWaiter (a ++ b) w = countWaiter a w + countWaiter b w :=
  List.countP_append _ _ _

theorem countWaiter_singleton (i w' w : Nat) :
    countWaiter [(i, w')] w = if w' = w then 1 else 0 := by
  simp [countWaiter, List.countP_cons]

theorem countResults_map_drain (m : List (Nat × Nat)) (r : Obj) (w : Nat) :
    countResults (m.map (fun p => (p.2, r))) w = countWaiter m w := by
  induction m with
  | nil => rfl
  | cons p rest ih =>
    simp [countResults, countWaiter, List.countP_cons] at *
    omega

theorem countWaiter_assocDelete {m : List (Nat × Nat)} {i w : Nat}
    (hnd : (assocKeys m).Nodup) (hget : assocGet m i = some w) (w' : Nat) :
    countWaiter (assocDelete m i) w' + (if w = w' then 1 else 0) =
      countWaiter m w' := by
  induction m with
  | nil => simp [assocGet] at hget
  | cons p rest ih =>
    rw [assocKeys, List.map_cons, List.nodup_cons] at hnd
    rw [assocGet] at hget
    by_cases hp : p.1 = i
    · rw [if_pos hp] at hget
      have hrest : assocDelete rest i = rest :=
        assocDelete_of_not_mem (by rw [← hp]; exact hnd.1)
      rw [assocDelete, if_pos hp, hrest]
      cases hget
      rcases p with ⟨a, b⟩
      simp [countWaiter, List.countP_cons]
    · rw [if_neg hp] at hget
      have := ih hnd.2 hget
      rw [assocDelete, if_neg hp]
      simp [countWaiter, List.countP_cons] at *
      omega

/-! ## Shapes of the individual steps -/

theorem step_connection (s : ServerState) :
    step s Event.connection
      = { s with extensionSocket := some s.socketCount,
                 socketCount := s.socketCount + 1 } := rfl

theorem step_close (s : ServerState) (k : Nat) :
    step s (Event.close k)
      = { s with extensionSocket := none,
                 results := s.results ++
                   s.pendingRequests.map (fun p => (p.2, disconnectedResult)),
                 pendingRequests := [] } := rfl

theorem step_submit_absent (s : ServerState) (cmd : Obj) (sf : Bool)
    (h : s.extensionSocket = none) :
    step s (Event.submit cmd sf)
      = { s with results := s.results ++ [(s.nextWaiter, notConnectedResult)],
                 nextWaiter := s.nextWaiter + 1 } := by
  simp [step, h]

theorem step_submit_ok (s : ServerState) (cmd : Obj) {j : Nat}
    (h : s.extensionSocket = some j) :
    step s (Event.submit cmd false)
      = { s with nextUuid := s.nextUuid + 1,
                 nextWaiter := s.nextWaiter + 1,
                 pendingRequests := assocSet s.pendingRequests s.nextUuid s.nextWaiter,
                 sent := s.sent ++ [outboundMessage s.nextUuid cmd] } := by
  simp [step, h]

theorem step_submit_sendfail (s : ServerState) (cmd : Obj) {j : Nat}
    (h : s.extensionSocket = some j) :
    step s (Event.submit cmd true)
      = { s with nextUuid := s.nextUuid + 1,
                 nextWaiter := s.nextWaiter + 1,
                 pendingRequests :=
                   assocDelete (assocSet s.pendingRequests s.nextUuid s.nextWaiter)
                     s.nextUuid,
                 results := s.results ++ [(s.nextWaiter, sendFailedResult)] } := by
  simp [step, h]

theorem step_message_hit {s : ServerState} {msg : Obj} {i w : Nat}
    (hid : assocGet msg "id" = some (JVal.n i))
    (hp : assocGet s.pendingRequests i = some w) :
    step s (Event.message msg)
      = { s with pendingRequests := assocDelete s.pendingRequests i,
                 results := s.results ++ [(w, msg)] } := by
  simp [step, hid, hp]

theorem step_message_stale {s : ServerState} {msg : Obj} {i : Nat}
    (hid : assocGet msg "id" = some (JVal.n i))
    (hp : assocGet s.pendingRequests i = none) :
    step s (Event.message msg) = s := by
  simp [step, hid, hp]

theorem step_timer_hit {s : ServerState} {i w : Nat}
    (hp : assocGet s.pendingRequests i = some w) :
    step s (Event.timerFire i)
      = { s with pendingRequests := assocDelete s.pendingRequests i,
                 results := s.results ++ [(w, timeoutResult)] } := by
  simp [step, hp]

theorem step_timer_stale {s : ServerState} {i : Nat}
    (hp : assocGet s.pendingRequests i = none) :
    step s (Event.timerFire i) = s := by
  simp [step, hp]

/-! ## Trace lemmas -/

theorem runFrom_nil (s : ServerState) : runFrom s [] = s := rfl

theorem runFrom_cons (s : ServerState) (e : Event) (tr : List Event) :
    runFrom s (e :: tr) = runFrom (step s e) tr := rfl

theorem runFrom_append (s : ServerState) (a b : List Event) :
    runFrom s (a ++ b) = runFrom (runFrom s a) b := by
  simp [runFrom, List.foldl_append]

theorem run_append_cons (a : List Event) (e : Event) (b : List Event) :
    run (a ++ e :: b) = runFrom (step (run a) e) b := by
  simp [run, runFrom, List.foldl_append]

theorem nextUuid_le_step (s : ServerState) (e : Event) :
    s.nextUuid ≤ (step s e).nextUuid := by
  cases e with
  | connection => exact le_rfl
  | close k => exact le_rfl
  | submit cmd sf =>
    cases hsock : s.extensionSocket with
    | none =>
      rw [step_submit_absent s cmd sf hsock]
    | some j =>
      cases sf with
      | false => rw [step_submit_ok s cmd hsock]; exact Nat.le_succ _
      | true => rw [step_submit_sendfail s cmd hsock]; exact Nat.le_succ _
  | message msg =>
    rcases hid : assocGet msg "id" with _ | v
    · simp [step, hid]
    · cases v with
      | s x => simp [step, hid]
      | b x => simp [step, hid]
      | n i =>
        rcases hp : assocGet s.pendingRequests i with _ | w
        · rw [step_message_stale hid hp]
        · rw [step_message_hit hid hp]
  | timerFire i =>
    rcases hp : assocGet s.pendingRequests i with _ | w
    · rw [step_timer_stale hp]
    · rw [step_timer_hit hp]

theorem nextWaiter_le_step (s : ServerState) (e : Event) :
    s.nextWaiter ≤ (step s e).nextWaiter := by
  cases e with
  | connection => exact le_rfl
  | close k => exact le_rfl
  | submit cmd sf =>
    cases hsock : s.extensionSocket with
    | none =>
      rw [step_submit_absent s cmd sf hsock]; exact Nat.le_succ _
    | some j =>
      cases sf with
      | false => rw [step_submit_ok s cmd hsock]; exact Nat.le_succ _
      | true => rw [step_submit_sendfail s cmd hsock]; exact Nat.le_succ _
  | message msg =>
    rcases hid : assocGet msg "id" with _ | v
    · simp [step, hid]
    · cases v with
      | s x => simp [step, hid]
      | b x => simp [step, hid]
      | n i =>
        rcases hp : assocGet s.pendingRequests i with _ | w
        · rw [step_message_stale hid hp]
        · rw [step_message_hit hid hp]
  | timerFire i =>
    rcases hp : assocGet s.pendingRequests i with _ | w
    · rw [step_timer_stale hp]
    · rw [step_timer_hit hp]

theorem nextUuid_le_runFrom (s : ServerState) (tr : List Event) :
    s.nextUuid ≤ (runFrom s tr).nextUuid := by
  induction tr generalizing s with
  | nil => exact le_rfl
  | cons e rest ih =>
    rw [runFrom_cons]
    exact le_trans (nextUuid_le_step s e) (ih (step s e))

theorem nextWaiter_le_runFrom (s : ServerState) (tr : List Event) :
    s.nextWaiter ≤ (runFrom s tr).nextWaiter := by
  induction tr generalizing s with
  | nil => exact le_rfl
  | cons e rest ih =>
    rw [runFrom_cons]
    exact le_trans (nextWaiter_le_step s e) (ih (step s e))

/-- Every entry of the correlation table after a step was either already
present, or is the entry freshly registered by that step. -/
theorem mem_pending_step {s : ServerState} {e : Event} {p : Nat × Nat}
    (h : p ∈ (step s e).pendingRequests) :
    p ∈ s.pendingRequests ∨ (p.1 = s.nextUuid ∧ p.2 = s.nextWaiter) := by
  cases e with
  | connection => exact Or.inl h
  | close k => simp [step] at h
  | submit cmd sf =>
    cases hsock : s.extensionSocket with
    | none =>
      rw [step_submit_absent s cmd sf hsock] at h
      exact Or.inl h
    | some j =>
      cases sf with
      | false =>
        rw [step_submit_ok s cmd hsock] at h
        rcases mem_assocSet h with h1 | h1
        · exact Or.inl h1
        · right
          rw [h1]
          exact ⟨rfl, rfl⟩
      | true =>
        rw [step_submit_sendfail s cmd hsock] at h
        rcases mem_assocSet (mem_of_mem_assocDelete h) with h1 | h1
        · exact Or.inl h1
        · right
          rw [h1]
          exact ⟨rfl, rfl⟩
  | message msg =>
    rcases hid : assocGet msg "id" with _ | v
    · simp only [step, hid] at h
      exact Or.inl h
    · cases v with
      | s x => simp only [step, hid] at h; exact Or.inl h
      | b x => simp only [step, hid] at h; exact Or.inl h
      | n i =>
        rcases hp : assocGet s.pendingRequests i with _ | w
        · rw [step_message_stale hid hp] at h
          exact Or.inl h
        · rw [step_message_hit hid hp] at h
          exact Or.inl (mem_of_mem_assocDelete h)
  | timerFire i =>
    rcases hp : assocGet s.pendingRequests i with _ | w
    · rw [step_timer_stale hp] at h
      exact Or.inl h
    · rw [step_timer_hit hp] at h
      exact Or.inl (mem_of_mem_assocDelete h)

/-- An entry of the correlation table whose identifier (or waiter index)
predates a trace segment was already in the table before that segment: an
entry, once removed, is never re-created, because fresh identifiers and
waiter indices only grow. -/
theorem mem_pending_runFrom {s : ServerState} {tr : List Event} {p : Nat × Nat}
    (h : p ∈ (runFrom s tr).pendingRequests)
    (hlt : p.1 < s.nextUuid ∨ p.2 < s.nextWaiter) : p ∈ s.pendingRequests := by
  induction tr generalizing s with
  | nil => exact h
  | cons e rest ih =>
    rw [runFrom_cons] at h
    have hlt2 : p.1 < (step s e).nextUuid ∨ p.2 < (step s e).nextWaiter := by
      rcases hlt with h1 | h1
      · exact Or.inl (lt_of_lt_of_le h1 (nextUuid_le_step s e))
      · exact Or.inr (lt_of_lt_of_le h1 (nextWaiter_le_step s e))
    rcases mem_pending_step (ih h hlt2) with h1 | h1
    · exact h1
    · rcases hlt with h2 | h2
      · exact absurd (h1.1 ▸ h2) (lt_irrefl _)
      · exact absurd (h1.2 ▸ h2) (lt_irrefl _)

/-! ## The correlation-table invariant -/

/-- The invariant of the correlation engine:

* every stored identifier was allocated (is below the identifier counter),
* every stored resolver belongs to a call that happened,
* the table holds at most one entry per identifier, and
* each `executeCommand` call so far has been given exactly one result or is
  represented by exactly one table entry — never both and never neither
  (spec section 3: "an entry exists in the table if and only if no resolution
  has yet been delivered to its waiter"). -/
structure Inv (s : ServerState) : Prop where
  ids_lt : ∀ p ∈ s.pendingRequests, p.1 < s.nextUuid
  waiters_lt : ∀ p ∈ s.pendingRequests, p.2 < s.nextWaiter
  keys_nodup : (assocKeys s.pendingRequests).Nodup
  once : ∀ w, countResults s.results w + countWaiter s.pendingRequests w
           = if w < s.nextWaiter then 1 else 0

theorem inv_init : Inv initState := by
  refine ⟨?_, ?_, ?_, ?_⟩
  · intro p hp
    simp [initState] at hp
  · intro p hp
    simp [initState] at hp
  · simp [initState, assocKeys]
  · intro w
    simp [initState, countResults, countWaiter]

/-- The identifier about to be allocated is never already a key of the
table. -/
theorem fresh_uuid_not_mem {s : ServerState} (hs : Inv s) :
    s.nextUuid ∉ assocKeys s.pendingRequests := by
  intro hmem
  rcases mem_assocKeys.mp hmem with ⟨v, hv⟩
  exact absurd (hs.ids_lt _ hv) (lt_irrefl _)

/-- Each step of the server preserves the invariant. -/
theorem inv_step {s : ServerState} (hs : Inv s) (e : Event) : Inv (step s e) := by
  cases e with
  | connection =>
    exact ⟨hs.ids_lt, hs.waiters_lt, hs.keys_nodup, hs.once⟩
  | close k =>
    rw [step_close]
    refine ⟨?_, ?_, ?_, ?_⟩
    · intro p hp
      simp at hp
    · intro p hp
      simp at hp
    · simp [assocKeys]
    · intro w
      have h0 := hs.once w
      dsimp only
      rw [countResults_append, countResults_map_drain]
      have hz : countWaiter ([] : List (Nat × Nat)) w = 0 := rfl
      rw [hz]
      omega
  | submit cmd sf =>
    cases hsock : s.extensionSocket with
    | none =>
      rw [step_submit_absent s cmd sf hsock]
      refine ⟨hs.ids_lt, ?_, hs.keys_nodup, ?_⟩
      · intro p hp
        exact Nat.lt_succ_of_lt (hs.waiters_lt p hp)
      · intro w
        have h0 := hs.once w
        dsimp only
        rw [countResults_append, countResults_singleton]
        by_cases hlt : w < s.nextWaiter
        · rw [if_pos hlt] at h0
          rw [if_neg (by omega), if_pos (by omega)]
          omega
        · rw [if_neg hlt] at h0
          by_cases heq : s.nextWaiter = w
          · rw [if_pos heq, if_pos (by omega)]
            omega
          · rw [if_neg heq, if_neg (by omega)]
            omega
    | some j =>
      have hfresh := fresh_uuid_not_mem hs
      cases sf with
      | false =>
        rw [step_submit_ok s cmd hsock,
            assocSet_of_not_mem s.nextWaiter hfresh]
        refine ⟨?_, ?_, ?_, ?_⟩
        · intro p hp
          rcases List.mem_append.mp hp with h1 | h1
          · exact Nat.lt_succ_of_lt (hs.ids_lt p h1)
          · rw [List.mem_singleton] at h1
            subst h1
            exact Nat.lt_succ_self _
        · intro p hp
          rcases List.mem_append.mp hp with h1 | h1
          · exact Nat.lt_succ_of_lt (hs.waiters_lt p h1)
          · rw [List.mem_singleton] at h1
            subst h1
            exact Nat.lt_succ_self _
        · exact nodup_keys_append_fresh hs.keys_nodup hfresh
        · intro w
          have h0 := hs.once w
          dsimp only
          rw [countWaiter_append, countWaiter_singleton]
          by_cases hlt : w < s.nextWaiter
          · rw [if_pos hlt] at h0
            rw [if_neg (by omega), if_pos (by omega)]
            omega
          · rw [if_neg hlt] at h0
            by_cases heq : s.nextWaiter = w
            · rw [if_pos heq, if_pos (by omega)]
              omega
            · rw [if_neg heq, if_neg (by omega)]
              omega
      | true =>
        rw [step_submit_sendfail s cmd hsock,
            assocDelete_assocSet_fresh s.nextWaiter hfresh]
        refine ⟨?_, ?_, hs.keys_nodup, ?_⟩
        · intro p hp
          exact Nat.lt_succ_of_lt (hs.ids_lt p hp)
        · intro p hp
          exact Nat.lt_succ_of_lt (hs.waiters_lt p hp)
        · intro w
          have h0 := hs.once w
          dsimp only
          rw [countResults_append, countResults_singleton]
          by_cases hlt : w < s.nextWaiter
          · rw [if_pos hlt] at h0
            rw [if_neg (by omega), if_pos (by omega)]
            omega
          · rw [if_neg hlt] at h0
            by_cases heq : s.nextWaiter = w
            · rw [if_pos heq, if_pos (by omega)]
              omega
            · rw [if_neg heq, if_neg (by omega)]
              omega
  | message msg =>
    rcases hid : assocGet msg "id" with _ | v
    · simpa only [step, hid] using hs
    · cases v with
      | s x => simpa only [step, hid] using hs
      | b x => simpa only [step, hid] using hs
      | n i =>
        rcases hp : assocGet s.pendingRequests i with _ | w0
        · rw [step_message_stale hid hp]
          exact hs
        · rw [step_message_hit hid hp]
          refine ⟨?_, ?_, nodup_keys_assocDelete hs.keys_nodup, ?_⟩
          · intro p hp2
            exact hs.ids_lt p (mem_of_mem_assocDelete hp2)
          · intro p hp2
            exact hs.waiters_lt p (mem_of_mem_assocDelete hp2)
          · intro w
            have h0 := hs.once w
            have hdel := countWaiter_assocDelete hs.keys_nodup hp w
            dsimp only
            rw [countResults_append, countResults_singleton]
            by_cases hw0 : w0 = w
            · rw [if_pos hw0] at hdel ⊢
              omega
            · rw [if_neg hw0] at hdel ⊢
              omega
  | timerFire i =>
    rcases hp : assocGet s.pendingRequests i with _ | w0
    · rw [step_timer_stale hp]
      exact hs
    · rw [step_timer_hit hp]
      refine ⟨?_, ?_, nodup_keys_assocDelete hs.keys_nodup, ?_⟩
      · intro p hp2
        exact hs.ids_lt p (mem_of_mem_assocDelete hp2)
      · intro p hp2
        exact hs.waiters_lt p (mem_of_mem_assocDelete hp2)
      · intro w
        have h0 := hs.once w
        have hdel := countWaiter_assocDelete hs.keys_nodup hp w
        dsimp only
        rw [countResults_append, countResults_singleton]
        by_cases hw0 : w0 = w
        · rw [if_pos hw0] at hdel ⊢
          omega
        · rw [if_neg hw0] at hdel ⊢
          omega

theorem inv_runFrom {s : ServerState} (hs : Inv s) (tr : List Event) :
    Inv (runFrom s tr) := by
  induction tr generalizing s with
  | nil => exact hs
  | cons e rest ih =>
    rw [runFrom_cons]
    exact ih (inv_step hs e)

theorem inv_run (tr : List Event) : Inv (run tr) :=
  inv_runFrom inv_init tr

/-- Once a caller has received its one result and no table entry stores its
resolver any more, the rest of the trace leaves its result count at one:
resolved requests are never resolved again and never re-registered. -/
theorem countResults_stable {s : ServerState} (hs : Inv s) {w : Nat}
    (hres : countResults s.results w = 1)
    (hpend : countWaiter s.pendingRequests w = 0) (tr : List Event) :
    countResults (runFrom s tr).results w = 1 := by
  have hw : w < s.nextWaiter := by
    have h0 := hs.once w
    by_contra hc
    rw [if_neg hc] at h0
    omega
  have hfin := (inv_runFrom hs tr).once w
  rw [if_pos (lt_of_lt_of_le hw (nextWaiter_le_runFrom s tr))] at hfin
  have hzero : countWaiter (runFrom s tr).pendingRequests w = 0 := by
    rw [countWaiter_eq_zero]
    rintro ⟨i, w2⟩ hp hpw
    dsimp only at hpw
    subst hpw
    have hmem : (i, w2) ∈ s.pendingRequests :=
      mem_pending_runFrom hp (Or.inr hw)
    have := countWaiter_pos_of_mem hmem
    omega
  omega

/-! ## Claim theorems -/

/-- C1: For every request submitted via the dispatcher
(`executeCommand`), exactly one terminal result is eventually delivered to
the caller's waiter — a success, an executor-reported domain error, a
timeout, a send failure, a not-connected failure, or a disconnect failure —
never zero results and never more than one, regardless of how replies, the
per-request timer, and connection loss interleave.

The submission happens after an arbitrary history `t1` and is followed by an
arbitrary continuation `t2`.  The only assumption is the JS runtime's
guarantee that an armed `setTimeout` eventually fires: when the submission
registers a timer (the connected, send-succeeds case), `t2` contains the
firing of that timer.  A not-connected submission and a failed send resolve
immediately and arm no effective timer, so nothing is assumed about `t2`
there.  The conclusion: the submitting caller's waiter receives exactly one
result over the whole trace. -/
theorem submit_exactly_one_result
    (t1 t2 : List Event) (cmd : Obj) (sf : Bool)
    (hfair : (run t1).extensionSocket = none ∨ sf = true
        ∨ Event.timerFire (run t1).nextUuid ∈ t2) :
    countResults (run (t1 ++ Event.submit cmd sf :: t2)).results
      (run t1).nextWaiter = 1 := by
  have hinv1 : Inv (run t1) := inv_run t1
  have h0 := hinv1.once (run t1).nextWaiter
  rw [if_neg (lt_irrefl _)] at h0
  rw [run_append_cons]
  cases hsock : (run t1).extensionSocket with
  | none =>
    rw [step_submit_absent (run t1) cmd sf hsock]
    have hinv2 := inv_step hinv1 (Event.submit cmd sf)
    rw [step_submit_absent (run t1) cmd sf hsock] at hinv2
    refine countResults_stable hinv2 ?_ ?_ t2
    · rw [countResults_append, countResults_singleton, if_pos rfl]
      omega
    · dsimp only
      omega
  | some j =>
    cases sf with
    | true =>
      rw [step_submit_sendfail (run t1) cmd hsock]
      have hinv2 := inv_step hinv1 (Event.submit cmd true)
      rw [step_submit_sendfail (run t1) cmd hsock] at hinv2
      have hdel : assocDelete
          (assocSet (run t1).pendingRequests (run t1).nextUuid (run t1).nextWaiter)
          (run t1).nextUuid = (run t1).pendingRequests :=
        assocDelete_assocSet_fresh _ (fresh_uuid_not_mem hinv1)
      rw [hdel] at hinv2 ⊢
      refine countResults_stable hinv2 ?_ ?_ t2
      · rw [countResults_append, countResults_singleton, if_pos rfl]
        omega
      · dsimp only
        omega
    | false =>
      have htim : Event.timerFire (run t1).nextUuid ∈ t2 := by
        rcases hfair with h | h | h
        · rw [hsock] at h
          cases h
        · cases h
        · exact h
      have hsetq : assocSet (run t1).pendingRequests (run t1).nextUuid (run t1).nextWaiter
          = (run t1).pendingRequests ++ [((run t1).nextUuid, (run t1).nextWaiter)] :=
        assocSet_of_not_mem _ (fresh_uuid_not_mem hinv1)
      obtain ⟨u1, u2, ht2⟩ := List.append_of_mem htim
      subst ht2
      rw [runFrom_append, runFrom_cons]
      set s2 := step (run t1) (Event.submit cmd false) with hs2
      have hs2eq := step_submit_ok (run t1) cmd hsock
      rw [hsetq] at hs2eq
      have hp2 : s2.pendingRequests
          = (run t1).pendingRequests ++ [((run t1).nextUuid, (run t1).nextWaiter)] := by
        rw [hs2, hs2eq]
      have hn2 : s2.nextUuid = (run t1).nextUuid + 1 := by
        rw [hs2, hs2eq]
      have hw2 : s2.nextWaiter = (run t1).nextWaiter + 1 := by
        rw [hs2, hs2eq]
      have hinv2 : Inv s2 := by
        rw [hs2]
        exact inv_step hinv1 (Event.submit cmd false)
      set s3 := runFrom s2 u1 with hs3
      have hinv3 : Inv s3 := by
        rw [hs3]
        exact inv_runFrom hinv2 u1
      have h6 : s2.nextWaiter ≤ s3.nextWaiter := by
        rw [hs3]
        exact nextWaiter_le_runFrom s2 u1
      have hwlt3 : (run t1).nextWaiter < s3.nextWaiter := by
        rw [hw2] at h6
        omega
      have hmem2 : ∀ p : Nat × Nat, p ∈ s3.pendingRequests →
          p.1 = (run t1).nextUuid ∨ p.2 = (run t1).nextWaiter →
          p.1 = (run t1).nextUuid ∧ p.2 = (run t1).nextWaiter := by
        intro p hp hor
        have hlt : p.1 < s2.nextUuid ∨ p.2 < s2.nextWaiter := by
          rw [hn2, hw2]
          rcases hor with h1 | h1
          · exact Or.inl (by omega)
          · exact Or.inr (by omega)
        have h2 : p ∈ s2.pendingRequests := mem_pending_runFrom (hs3 ▸ hp) hlt
        rw [hp2] at h2
        rcases List.mem_append.mp h2 with h3 | h3
        · exfalso
          rcases hor with h1 | h1
          · have := hinv1.ids_lt p h3
            omega
          · rcases p with ⟨i, w⟩
            dsimp only at h1
            subst h1
            have := countWaiter_pos_of_mem h3
            omega
        · rw [List.mem_singleton] at h3
          subst h3
          exact ⟨rfl, rfl⟩
      cases hg : assocGet s3.pendingRequests (run t1).nextUuid with
      | none =>
        rw [step_timer_stale hg]
        have hpend3 : countWaiter s3.pendingRequests (run t1).nextWaiter = 0 := by
          rw [countWaiter_eq_zero]
          intro p hp hpw
          have h4 := hmem2 p hp (Or.inr hpw)
          rcases p with ⟨i, w⟩
          dsimp only at h4
          rcases h4 with ⟨h4a, h4b⟩
          subst h4a
          subst h4b
          rw [assocGet_of_mem_of_nodup hinv3.keys_nodup hp] at hg
          cases hg
        have hres3 : countResults s3.results (run t1).nextWaiter = 1 := by
          have h5 := hinv3.once (run t1).nextWaiter
          rw [if_pos hwlt3] at h5
          omega
        exact countResults_stable hinv3 hres3 hpend3 u2
      | some w2 =>
        have hmemid := assocGet_mem hg
        have h4 := hmem2 _ hmemid (Or.inl rfl)
        have hw2eq : w2 = (run t1).nextWaiter := h4.2
        subst hw2eq
        rw [step_timer_hit hg]
        have hinv4 := inv_step hinv3 (Event.timerFire (run t1).nextUuid)
        rw [step_timer_hit hg] at hinv4
        have h5 := hinv3.once (run t1).nextWaiter
        rw [if_pos hwlt3] at h5
        have hpos := countWaiter_pos_of_mem hmemid
        refine countResults_stable hinv4 ?_ ?_ u2
        · dsimp only
          rw [countResults_append, countResults_singleton, if_pos rfl]
          omega
        · dsimp only
          have hdel := countWaiter_assocDelete hinv3.keys_nodup hg (run t1).nextWaiter
          rw [if_pos rfl] at hdel
          omega

/-- Witness for C1: a concrete connected submission; the continuation fires
the request's timer and then delivers a stale reply, and the caller still
receives exactly one result. -/
theorem submit_exactly_one_result_witness :
    ((run [Event.connection]).extensionSocket = none ∨ false = true
        ∨ Event.timerFire (run [Event.connection]).nextUuid ∈
            [Event.timerFire 0, Event.message [("id", JVal.n 0)]]) ∧
    countResults (run ([Event.connection] ++
        Event.submit [("action", JVal.s "read")] false
          :: [Event.timerFire 0, Event.message [("id", JVal.n 0)]])).results
      (run [Event.connection]).nextWaiter = 1 :=
  ⟨by decide,
   submit_exactly_one_result [Event.connection]
     [Event.timerFire 0, Event.message [("id", JVal.n 0)]]
     [("action", JVal.s "read")] false (by decide)⟩

/-- C2: Two submissions made while the executor is connected receive two
distinct correlation identifiers (and two distinct waiters), and an inbound
reply carrying the first submission's identifier `idA` resolves only the
waiter registered under `idA` — never the second submission's waiter — no
matter what happened in between (`t1`, `t2` are arbitrary, so in particular
`t2` may deliver the reply for the second identifier first).  Matching is
purely by identifier: processing the reply either changes nothing (the
identifier is no longer registered) or delivers the reply to exactly the
first submission's waiter, and the second submission's result count is
unchanged either way. -/
theorem distinct_ids_and_resolution_by_id
    (t0 t1 t2 : List Event) (c1 c2 msgA : Obj) (j1 j2 : Nat)
    (hc1 : (run t0).extensionSocket = some j1)
    (_hc2 : (run (t0 ++ Event.submit c1 false :: t1)).extensionSocket = some j2)
    (hA : assocGet msgA "id" = some (JVal.n (run t0).nextUuid)) :
    (run t0).nextUuid ≠ (run (t0 ++ Event.submit c1 false :: t1)).nextUuid ∧
    (run t0).nextWaiter ≠ (run (t0 ++ Event.submit c1 false :: t1)).nextWaiter ∧
    ((step (run (t0 ++ Event.submit c1 false :: (t1 ++ Event.submit c2 false :: t2)))
        (Event.message msgA)).results
        = (run (t0 ++ Event.submit c1 false :: (t1 ++ Event.submit c2 false :: t2))).results
      ∨ (step (run (t0 ++ Event.submit c1 false :: (t1 ++ Event.submit c2 false :: t2)))
        (Event.message msgA)).results
        = (run (t0 ++ Event.submit c1 false :: (t1 ++ Event.submit c2 false :: t2))).results
            ++ [((run t0).nextWaiter, msgA)]) ∧
    countResults (step (run (t0 ++ Event.submit c1 false :: (t1 ++ Event.submit c2 false :: t2)))
        (Event.message msgA)).results
        (run (t0 ++ Event.submit c1 false :: t1)).nextWaiter
      = countResults (run (t0 ++ Event.submit c1 false :: (t1 ++ Event.submit c2 false :: t2))).results
          (run (t0 ++ Event.submit c1 false :: t1)).nextWaiter := by
  have hinv0 : Inv (run t0) := inv_run t0
  have hs1eq := step_submit_ok (run t0) c1 hc1
  have hsetq : assocSet (run t0).pendingRequests (run t0).nextUuid (run t0).nextWaiter
      = (run t0).pendingRequests ++ [((run t0).nextUuid, (run t0).nextWaiter)] :=
    assocSet_of_not_mem _ (fresh_uuid_not_mem hinv0)
  rw [hsetq] at hs1eq
  -- counters strictly after the first submission
  have hrun1 : run (t0 ++ Event.submit c1 false :: t1)
      = runFrom (step (run t0) (Event.submit c1 false)) t1 := run_append_cons t0 _ t1
  have hstep1u : (run t0).nextUuid < (step (run t0) (Event.submit c1 false)).nextUuid := by
    rw [hs1eq]
    dsimp only
    omega
  have hstep1w : (run t0).nextWaiter < (step (run t0) (Event.submit c1 false)).nextWaiter := by
    rw [hs1eq]
    dsimp only
    omega
  have hidB : (run t0).nextUuid < (run (t0 ++ Event.submit c1 false :: t1)).nextUuid := by
    rw [hrun1]
    have hmono := nextUuid_le_runFrom (step (run t0) (Event.submit c1 false)) t1
    omega
  have hwB : (run t0).nextWaiter < (run (t0 ++ Event.submit c1 false :: t1)).nextWaiter := by
    rw [hrun1]
    have hmono := nextWaiter_le_runFrom (step (run t0) (Event.submit c1 false)) t1
    omega
  refine ⟨by omega, by omega, ?_⟩
  have hrunBig : run (t0 ++ Event.submit c1 false :: (t1 ++ Event.submit c2 false :: t2))
      = runFrom (step (run t0) (Event.submit c1 false)) (t1 ++ Event.submit c2 false :: t2) :=
    run_append_cons t0 _ _
  cases hg : assocGet (run (t0 ++ Event.submit c1 false ::
      (t1 ++ Event.submit c2 false :: t2))).pendingRequests (run t0).nextUuid with
  | none =>
    rw [step_message_stale hA hg]
    exact ⟨Or.inl rfl, rfl⟩
  | some w2 =>
    have hmemid := assocGet_mem hg
    rw [hrunBig] at hmemid
    have h2 : ((run t0).nextUuid, w2)
        ∈ (step (run t0) (Event.submit c1 false)).pendingRequests := by
      refine mem_pending_runFrom hmemid (Or.inl ?_)
      rw [hs1eq]
      dsimp only
      omega
    rw [hs1eq] at h2
    dsimp only at h2
    have hw2 : w2 = (run t0).nextWaiter := by
      rcases List.mem_append.mp h2 with h3 | h3
      · exact absurd (hinv0.ids_lt _ h3) (lt_irrefl _)
      · rw [List.mem_singleton] at h3
        exact (congrArg Prod.snd h3)
    subst hw2
    rw [step_message_hit hA hg]
    refine ⟨Or.inr rfl, ?_⟩
    dsimp only
    rw [countResults_append, countResults_singleton, if_neg (by omega)]
    omega

/-- Witness for C2: two concrete connected submissions; the reply for the
first identifier resolves the first caller only. -/
theorem distinct_ids_and_resolution_by_id_witness :
    ((run [Event.connection]).extensionSocket = some 0 ∧
     (run ([Event.connection] ++ Event.submit [("action", JVal.s "read")] false
        :: [])).extensionSocket = some 0 ∧
     assocGet [("id", JVal.n 0), ("success", JVal.b true)] "id"
        = some (JVal.n (run [Event.connection]).nextUuid)) ∧
    ((run [Event.connection]).nextUuid
        ≠ (run ([Event.connection] ++ Event.submit [("action", JVal.s "read")] false
            :: [])).nextUuid ∧
     (run [Event.connection]).nextWaiter
        ≠ (run ([Event.connection] ++ Event.submit [("action", JVal.s "read")] false
            :: [])).nextWaiter ∧
     ((step (run ([Event.connection] ++ Event.submit [("action", JVal.s "read")] false
          :: ([] ++ Event.submit [("action", JVal.s "click")] false :: [])))
          (Event.message [("id", JVal.n 0), ("success", JVal.b true)])).results
        = (run ([Event.connection] ++ Event.submit [("action", JVal.s "read")] false
            :: ([] ++ Event.submit [("action", JVal.s "click")] false :: []))).results
      ∨ (step (run ([Event.connection] ++ Event.submit [("action", JVal.s "read")] false
          :: ([] ++ Event.submit [("action", JVal.s "click")] false :: [])))
          (Event.message [("id", JVal.n 0), ("success", JVal.b true)])).results
        = (run ([Event.connection] ++ Event.submit [("action", JVal.s "read")] false
            :: ([] ++ Event.submit [("action", JVal.s "click")] false :: []))).results
            ++ [((run [Event.connection]).nextWaiter,
                  [("id", JVal.n 0), ("success", JVal.b true)])]) ∧
     countResults (step (run ([Event.connection] ++ Event.submit [("action", JVal.s "read")] false
          :: ([] ++ Event.submit [("action", JVal.s "click")] false :: [])))
          (Event.message [("id", JVal.n 0), ("success", JVal.b true)])).results
          (run ([Event.connection] ++ Event.submit [("action", JVal.s "read")] false
            :: [])).nextWaiter
        = countResults (run ([Event.connection] ++ Event.submit [("action", JVal.s "read")] false
            :: ([] ++ Event.submit [("action", JVal.s "click")] false :: []))).results
            (run ([Event.connection] ++ Event.submit [("action", JVal.s "read")] false
              :: [])).nextWaiter) :=
  ⟨⟨by decide, by decide, by decide⟩,
   distinct_ids_and_resolution_by_id [Event.connection] [] []
     [("action", JVal.s "read")] [("action", JVal.s "click")]
     [("id", JVal.n 0), ("success", JVal.b true)] 0 0
     (by decide) (by decide) (by decide)⟩

/-- C3: Resolution is idempotent-safe.  An inbound reply whose identifier is
no longer registered (already resolved — for example it raced with the
timeout that fired for the same identifier) is silently ignored: the whole
server state is unchanged, so nothing is thrown, no other pending request is
resolved, and the correlation table is untouched.  Symmetrically, a timer
firing for an identifier that is no longer registered is a no-op. -/
theorem stale_reply_and_stale_timer_are_noops
    (s : ServerState) (msg : Obj) (i : Nat)
    (hid : assocGet msg "id" = some (JVal.n i))
    (hp : assocGet s.pendingRequests i = none) :
    step s (Event.message msg) = s ∧ step s (Event.timerFire i) = s :=
  ⟨step_message_stale hid hp, step_timer_stale hp⟩

/-- Witness for C3: a stale reply (and a stale timer) for identifier 5 hit a
server that still has an unrelated request pending under identifier 0; the
state — that pending entry included — is unchanged. -/
theorem stale_reply_and_stale_timer_are_noops_witness :
    (assocGet [("id", JVal.n 5), ("success", JVal.b true)] "id" = some (JVal.n 5) ∧
     assocGet (run [Event.connection,
        Event.submit [("action", JVal.s "read")] false]).pendingRequests 5 = none) ∧
    (step (run [Event.connection, Event.submit [("action", JVal.s "read")] false])
        (Event.message [("id", JVal.n 5), ("success", JVal.b true)])
      = run [Event.connection, Event.submit [("action", JVal.s "read")] false] ∧
     step (run [Event.connection, Event.submit [("action", JVal.s "read")] false])
        (Event.timerFire 5)
      = run [Event.connection, Event.submit [("action", JVal.s "read")] false]) :=
  ⟨⟨by decide, by decide⟩,
   stale_reply_and_stale_timer_are_noops
     (run [Event.connection, Event.submit [("action", JVal.s "read")] false])
     [("id", JVal.n 5), ("success", JVal.b true)] 5 (by decide) (by decide)⟩

/-- C4: When the executor connection is lost (a socket `close` handler runs),
every currently-registered pending request is resolved with the
executor-disconnected failure — a result with `success: false` and the
disconnect error string — and the correlation table is empty afterwards. -/
theorem disconnect_drains_all_pending (s : ServerState) (k : Nat) :
    (step s (Event.close k)).pendingRequests = [] ∧
    (step s (Event.close k)).extensionSocket = none ∧
    (step s (Event.close k)).results
      = s.results ++ s.pendingRequests.map (fun p => (p.2, disconnectedResult)) ∧
    (∀ p ∈ s.pendingRequests, (p.2, disconnectedResult) ∈ (step s (Event.close k)).results) ∧
    assocGet disconnectedResult "success" = some (JVal.b false) ∧
    assocGet disconnectedResult "error" = some (JVal.s "Extension disconnected") := by
  refine ⟨rfl, rfl, rfl, ?_, rfl, rfl⟩
  intro p hp
  exact List.mem_append.mpr (Or.inr (List.mem_map.mpr ⟨p, hp, rfl⟩))

/-- C5: Immediate failures of submission leave no trace in the correlation
table.  A submission while the connection is absent immediately delivers the
not-connected failure, with no identifier allocated, nothing sent, and the
table unchanged.  A submission whose send to the executor throws has its
just-registered entry immediately resolved with the send-failed error and
removed: the table afterwards is exactly what it was before, rather than the
entry being left for the timeout sweeper. -/
theorem immediate_failures_leave_no_trace
    (s s' : ServerState) (cmd cmd' : Obj) (sf : Bool) (k : Nat)
    (habs : s.extensionSocket = none)
    (hconn : s'.extensionSocket = some k)
    (hfresh : ∀ p ∈ s'.pendingRequests, p.1 < s'.nextUuid) :
    ((step s (Event.submit cmd sf)).pendingRequests = s.pendingRequests ∧
     (step s (Event.submit cmd sf)).nextUuid = s.nextUuid ∧
     (step s (Event.submit cmd sf)).sent = s.sent ∧
     (step s (Event.submit cmd sf)).results
       = s.results ++ [(s.nextWaiter, notConnectedResult)]) ∧
    ((step s' (Event.submit cmd' true)).pendingRequests = s'.pendingRequests ∧
     (step s' (Event.submit cmd' true)).results
       = s'.results ++ [(s'.nextWaiter, sendFailedResult)]) := by
  constructor
  · rw [step_submit_absent s cmd sf habs]
    exact ⟨rfl, rfl, rfl, rfl⟩
  · rw [step_submit_sendfail s' cmd' hconn]
    refine ⟨?_, rfl⟩
    dsimp only
    apply assocDelete_assocSet_fresh
    intro hmem
    rcases mem_assocKeys.mp hmem with ⟨v, hv⟩
    exact absurd (hfresh _ hv) (lt_irrefl _)

/-- Witness for C5: the initial state is not connected; a one-connection
state with one pending request sees a failing send leave its table exactly
as it was. -/
theorem immediate_failures_leave_no_trace_witness :
    (ServerState.extensionSocket initState = none ∧
     (run [Event.connection,
        Event.submit [("action", JVal.s "read")] false]).extensionSocket = some 0 ∧
     (∀ p ∈ (run [Event.connection,
        Event.submit [("action", JVal.s "read")] false]).pendingRequests,
        p.1 < (run [Event.connection,
          Event.submit [("action", JVal.s "read")] false]).nextUuid)) ∧
    (((step initState (Event.submit [("selector", JVal.s "#x")] false)).pendingRequests
        = initState.pendingRequests ∧
      (step initState (Event.submit [("selector", JVal.s "#x")] false)).nextUuid
        = initState.nextUuid ∧
      (step initState (Event.submit [("selector", JVal.s "#x")] false)).sent
        = initState.sent ∧
      (step initState (Event.submit [("selector", JVal.s "#x")] false)).results
        = initState.results ++ [(initState.nextWaiter, notConnectedResult)]) ∧
     ((step (run [Event.connection, Event.submit [("action", JVal.s "read")] false])
          (Event.submit [("action", JVal.s "write")] true)).pendingRequests
        = (run [Event.connection, Event.submit [("action", JVal.s "read")] false]).pendingRequests ∧
      (step (run [Event.connection, Event.submit [("action", JVal.s "read")] false])
          (Event.submit [("action", JVal.s "write")] true)).results
        = (run [Event.connection, Event.submit [("action", JVal.s "read")] false]).results
            ++ [((run [Event.connection, Event.submit [("action", JVal.s "read")] false]).nextWaiter,
                 sendFailedResult)])) :=
  ⟨⟨rfl, by decide, by decide⟩,
   immediate_failures_leave_no_trace initState
     (run [Event.connection, Event.submit [("action", JVal.s "read")] false])
     [("selector", JVal.s "#x")] [("action", JVal.s "write")] false 0
     rfl (by decide) (by decide)⟩

/-! ## Lemmas about the object-spread construction of the outbound message -/

theorem assocGet_assocSet_self {α β : Type} [DecidableEq α]
    (m : List (α × β)) (k : α) (v : β) :
    assocGet (assocSet m k v) k = some v := by
  induction m with
  | nil => simp [assocSet, assocGet]
  | cons p rest ih =>
    rw [assocSet]
    by_cases hp : p.1 = k
    · rw [if_pos hp, assocGet, if_pos rfl]
    · rw [if_neg hp, assocGet, if_neg hp]
      exact ih

theorem assocGet_assocSet_ne {α β : Type} [DecidableEq α]
    (m : List (α × β)) {k k' : α} (v : β) (h : k ≠ k') :
    assocGet (assocSet m k v) k' = assocGet m k' := by
  induction m with
  | nil => simp [assocSet, assocGet, if_neg h]
  | cons p rest ih =>
    rw [assocSet]
    by_cases hp : p.1 = k
    · rw [if_pos hp, assocGet, if_neg h, assocGet, if_neg (hp ▸ h)]
    · rw [if_neg hp, assocGet, assocGet]
      by_cases hp' : p.1 = k'
      · rw [if_pos hp', if_pos hp']
      · rw [if_neg hp', if_neg hp']
        exact ih

theorem assocGet_foldl_set_of_not_mem :
    ∀ (cmd : Obj) (acc : Obj) {k : String}, k ∉ assocKeys cmd →
      assocGet (cmd.foldl (fun a p => assocSet a p.1 p.2) acc) k = assocGet acc k := by
  intro cmd
  induction cmd with
  | nil =>
    intro acc k _
    rfl
  | cons q rest ih =>
    intro acc k h
    rw [assocKeys, List.map_cons, List.mem_cons] at h
    push_neg at h
    rw [List.foldl_cons, ih _ h.2]
    exact assocGet_assocSet_ne acc q.2 (Ne.symm h.1)

theorem assocGet_foldl_set_of_mem :
    ∀ (cmd : Obj) (acc : Obj) {k : String} {v : JVal},
      (assocKeys cmd).Nodup → (k, v) ∈ cmd →
      assocGet (cmd.foldl (fun a p => assocSet a p.1 p.2) acc) k = some v := by
  intro cmd
  induction cmd with
  | nil =>
    intro acc k v _ h
    simp at h
  | cons q rest ih =>
    intro acc k v hnd h
    rw [assocKeys, List.map_cons, List.nodup_cons] at hnd
    rw [List.foldl_cons]
    rcases List.mem_cons.mp h with h1 | h1
    · have hk : k ∉ assocKeys rest := by
        rw [← h1] at hnd
        exact hnd.1
      rw [assocGet_foldl_set_of_not_mem rest _ hk, ← h1]
      exact assocGet_assocSet_self acc k v
    · exact ih _ hnd.2 h1

/-- C6 counterexample: the registered deadline is not the submission time
plus the caller-supplied timeout.  For a command carrying `timeout: 5000`,
the delay the code passes to `setTimeout` is still 30000 ms, not the 5000 ms
the claim (deadline = submission + caller-supplied timeout) requires. -/
theorem timer_delay_ignores_caller_timeout_cex :
    timerDelayMs [("action", JVal.s "read"), ("selector", JVal.s "#x"),
        ("timeout", JVal.n 5000)]
      ≠ specTimerDelayMs [("action", JVal.s "read"), ("selector", JVal.s "#x"),
        ("timeout", JVal.n 5000)] := by
  decide

/-- C6 (amended): the deadline armed for every submission is the fixed
30-second delay — the code passes the literal 30000 ms to `setTimeout` and
never reads a `timeout` field of the request.  The two deadline behaviors
hold: a matching reply processed while the entry is still registered (before
the timer fires) resolves the waiter with the reply's payload and makes the
later timer firing a no-op, and a request whose reply never arrived is
resolved by its timer with the `RequestTimeout` failure and removed from the
correlation table. -/
theorem fixed_thirty_second_deadline_behavior
    (cmd : Obj) (s s' : ServerState) (i i' w w' : Nat) (msg : Obj)
    (hid : assocGet msg "id" = some (JVal.n i))
    (hget : assocGet s.pendingRequests i = some w)
    (hget' : assocGet s'.pendingRequests i' = some w') :
    timerDelayMs cmd = 30000 ∧
    ((step s (Event.message msg)).results = s.results ++ [(w, msg)] ∧
      step (step s (Event.message msg)) (Event.timerFire i) = step s (Event.message msg)) ∧
    ((step s' (Event.timerFire i')).results = s'.results ++ [(w', timeoutResult)] ∧
      assocGet (step s' (Event.timerFire i')).pendingRequests i' = none) := by
  refine ⟨rfl, ⟨?_, ?_⟩, ?_, ?_⟩
  · rw [step_message_hit hid hget]
  · apply step_timer_stale
    rw [step_message_hit hid hget]
    exact assocGet_assocDelete_self _ _
  · rw [step_timer_hit hget']
  · rw [step_timer_hit hget']
    exact assocGet_assocDelete_self _ _

/-- Witness for the amended C6: a pending request resolved by a reply just
before its timer, and another pending request resolved by its timer. -/
theorem fixed_thirty_second_deadline_behavior_witness :
    (assocGet [("id", JVal.n 0), ("success", JVal.b true), ("data", JVal.s "hello")]
        "id" = some (JVal.n 0) ∧
     assocGet (run [Event.connection,
        Event.submit [("action", JVal.s "read")] false]).pendingRequests 0 = some 0) ∧
    (timerDelayMs [("action", JVal.s "read"), ("timeout", JVal.n 5000)] = 30000 ∧
     ((step (run [Event.connection, Event.submit [("action", JVal.s "read")] false])
          (Event.message [("id", JVal.n 0), ("success", JVal.b true),
            ("data", JVal.s "hello")])).results
        = (run [Event.connection, Event.submit [("action", JVal.s "read")] false]).results
            ++ [(0, [("id", JVal.n 0), ("success", JVal.b true), ("data", JVal.s "hello")])] ∧
      step (step (run [Event.connection, Event.submit [("action", JVal.s "read")] false])
          (Event.message [("id", JVal.n 0), ("success", JVal.b true),
            ("data", JVal.s "hello")])) (Event.timerFire 0)
        = step (run [Event.connection, Event.submit [("action", JVal.s "read")] false])
            (Event.message [("id", JVal.n 0), ("success", JVal.b true),
              ("data", JVal.s "hello")])) ∧
     ((step (run [Event.connection, Event.submit [("action", JVal.s "read")] false])
          (Event.timerFire 0)).results
        = (run [Event.connection, Event.submit [("action", JVal.s "read")] false]).results
            ++ [(0, timeoutResult)] ∧
      assocGet (step (run [Event.connection, Event.submit [("action", JVal.s "read")] false])
          (Event.timerFire 0)).pendingRequests 0 = none)) :=
  ⟨⟨by decide, by decide⟩,
   fixed_thirty_second_deadline_behavior
     [("action", JVal.s "read"), ("timeout", JVal.n 5000)]
     (run [Event.connection, Event.submit [("action", JVal.s "read")] false])
     (run [Event.connection, Event.submit [("action", JVal.s "read")] false])
     0 0 0 0
     [("id", JVal.n 0), ("success", JVal.b true), ("data", JVal.s "hello")]
     (by decide) (by decide) (by decide)⟩

/-- C7 counterexample: the claim says the caller receives the reply's
payload with the correlation identifier removed, but in the end-to-end read
scenario the delivered result is the whole reply object, `id` field
included — the code resolves the waiter with `message` as is and the HTTP
layer serializes that value unchanged. -/
theorem reply_payload_keeps_id_cex :
    (run [Event.connection,
        Event.submit [("action", JVal.s "read"), ("selector", JVal.s "#x")] false,
        Event.message [("id", JVal.n 0), ("success", JVal.b true),
          ("data", JVal.s "hello"), ("elementType", JVal.s "input")]]).results
      = [(0, [("id", JVal.n 0), ("success", JVal.b true),
          ("data", JVal.s "hello"), ("elementType", JVal.s "input")])] ∧
    assocGet [("id", JVal.n 0), ("success", JVal.b true),
        ("data", JVal.s "hello"), ("elementType", JVal.s "input")] "id" ≠ none := by
  decide

/-- C7 (amended): for every correlated executor reply, the caller receives
exactly the reply object itself, every field verbatim and the correlation
identifier included (the `id` field is not stripped).  Executor-reported
error strings therefore pass through verbatim, because the whole object is
delivered unchanged. -/
theorem reply_payload_passthrough
    (s : ServerState) (msg : Obj) (i w : Nat)
    (hid : assocGet msg "id" = some (JVal.n i))
    (hget : assocGet s.pendingRequests i = some w) :
    (step s (Event.message msg)).results = s.results ++ [(w, msg)] := by
  rw [step_message_hit hid hget]

/-- Witness for the amended C7: a domain-error reply is delivered verbatim
to its caller. -/
theorem reply_payload_passthrough_witness :
    (assocGet [("id", JVal.n 0), ("success", JVal.b false),
        ("error", JVal.s "Element not found: #x")] "id" = some (JVal.n 0) ∧
     assocGet (run [Event.connection,
        Event.submit [("action", JVal.s "read"), ("selector", JVal.s "#x")] false]).pendingRequests
        0 = some 0) ∧
    (step (run [Event.connection,
        Event.submit [("action", JVal.s "read"), ("selector", JVal.s "#x")] false])
        (Event.message [("id", JVal.n 0), ("success", JVal.b false),
          ("error", JVal.s "Element not found: #x")])).results
      = (run [Event.connection,
          Event.submit [("action", JVal.s "read"), ("selector", JVal.s "#x")] false]).results
          ++ [(0, [("id", JVal.n 0), ("success", JVal.b false),
            ("error", JVal.s "Element not found: #x")])] :=
  ⟨⟨by decide, by decide⟩,
   reply_payload_passthrough
     (run [Event.connection,
        Event.submit [("action", JVal.s "read"), ("selector", JVal.s "#x")] false])
     [("id", JVal.n 0), ("success", JVal.b false),
        ("error", JVal.s "Element not found: #x")] 0 0 (by decide) (by decide)⟩

/-- C8 counterexample: a command that itself carries an `id` field.  The
waiter is registered under the fresh identifier 0, but the outbound
message's `id` field is the command's own value, not the injected
identifier: in `{id, ...command}` the spread of `command` overwrites the
injected `id`. -/
theorem outbound_id_overridden_by_command_cex :
    (run [Event.connection,
        Event.submit [("id", JVal.s "rogue"), ("action", JVal.s "read")] false]).pendingRequests
      = [(0, 0)] ∧
    (run [Event.connection,
        Event.submit [("id", JVal.s "rogue"), ("action", JVal.s "read")] false]).sent
      = [[("id", JVal.s "rogue"), ("action", JVal.s "read")]] ∧
    assocGet [("id", JVal.s "rogue"), ("action", JVal.s "read")] "id"
      ≠ some (JVal.n 0) := by
  decide

/-- C8 (amended): for every accepted command, the outbound message is the
command's fields plus an injected `id` field, and the waiter is registered
under the freshly allocated identifier; the injected `id` value equals that
fresh identifier whenever the command does not itself carry an `id` field,
but a command's own `id` field overwrites the injected value in the
outbound message. -/
theorem outbound_message_construction
    (s : ServerState) (cmd : Obj) (k : Nat) (v : JVal)
    (hconn : s.extensionSocket = some k)
    (hnd : (assocKeys cmd).Nodup)
    (hfresh : ∀ p ∈ s.pendingRequests, p.1 < s.nextUuid) :
    (step s (Event.submit cmd false)).sent
        = s.sent ++ [outboundMessage s.nextUuid cmd] ∧
    (step s (Event.submit cmd false)).pendingRequests
        = s.pendingRequests ++ [(s.nextUuid, s.nextWaiter)] ∧
    ("id" ∉ assocKeys cmd →
      assocGet (outboundMessage s.nextUuid cmd) "id" = some (JVal.n s.nextUuid)) ∧
    (("id", v) ∈ cmd →
      assocGet (outboundMessage s.nextUuid cmd) "id" = some v) := by
  have hnotmem : s.nextUuid ∉ assocKeys s.pendingRequests := by
    intro hmem
    rcases mem_assocKeys.mp hmem with ⟨u, hu⟩
    exact absurd (hfresh _ hu) (lt_irrefl _)
  refine ⟨?_, ?_, ?_, ?_⟩
  · rw [step_submit_ok s cmd hconn]
  · rw [step_submit_ok s cmd hconn]
    exact assocSet_of_not_mem _ hnotmem
  · intro hid
    simp only [outboundMessage]
    rw [assocGet_foldl_set_of_not_mem cmd _ hid]
    rfl
  · intro hv
    simp only [outboundMessage]
    exact assocGet_foldl_set_of_mem cmd _ hnd hv

/-- Witness for the amended C8: the rogue command of the counterexample,
plus a clean command without `id` getting the fresh identifier injected. -/
theorem outbound_message_construction_witness :
    ((run [Event.connection]).extensionSocket = some 0 ∧
     (assocKeys [("id", JVal.s "rogue"), ("action", JVal.s "read")]).Nodup ∧
     (∀ p ∈ (run [Event.connection]).pendingRequests,
        p.1 < (run [Event.connection]).nextUuid)) ∧
    ((step (run [Event.connection])
        (Event.submit [("id", JVal.s "rogue"), ("action", JVal.s "read")] false)).sent
        = (run [Event.connection]).sent
            ++ [outboundMessage (run [Event.connection]).nextUuid
                 [("id", JVal.s "rogue"), ("action", JVal.s "read")]] ∧
     (step (run [Event.connection])
        (Event.submit [("id", JVal.s "rogue"), ("action", JVal.s "read")] false)).pendingRequests
        = (run [Event.connection]).pendingRequests
            ++ [((run [Event.connection]).nextUuid, (run [Event.connection]).nextWaiter)] ∧
     ("id" ∉ assocKeys [("id", JVal.s "rogue"), ("action", JVal.s "read")] →
       assocGet (outboundMessage (run [Event.connection]).nextUuid
           [("id", JVal.s "rogue"), ("action", JVal.s "read")]) "id"
         = some (JVal.n (run [Event.connection]).nextUuid)) ∧
     (("id", JVal.s "rogue") ∈ [("id", JVal.s "rogue"), ("action", JVal.s "read")] →
       assocGet (outboundMessage (run [Event.connection]).nextUuid
           [("id", JVal.s "rogue"), ("action", JVal.s "read")]) "id"
         = some (JVal.s "rogue"))) :=
  ⟨⟨by decide, by decide, by decide⟩,
   outbound_message_construction (run [Event.connection])
     [("id", JVal.s "rogue"), ("action", JVal.s "read")] 0 (JVal.s "rogue")
     (by decide) (by decide) (by decide)⟩

/-- C9 counterexample: two peers connect (the second replaces the first), a
request is submitted and in flight on the new peer; then the replaced old
peer's socket closes, and its close handler flips the live connection to
absent and drains the request in flight on the new peer — exactly what the
claimed consistently-applied policy forbids. -/
theorem replaced_peer_close_clobbers_live_connection_cex :
    (run [Event.connection, Event.connection]).extensionSocket = some 1 ∧
    (run [Event.connection, Event.connection,
        Event.submit [("action", JVal.s "read")] false,
        Event.close 0]).extensionSocket = none ∧
    (run [Event.connection, Event.connection,
        Event.submit [("action", JVal.s "read")] false,
        Event.close 0]).pendingRequests = [] ∧
    (run [Event.connection, Event.connection,
        Event.submit [("action", JVal.s "read")] false,
        Event.close 0]).results = [(0, disconnectedResult)] := by
  decide

/-- C9 (amended): the connection manager accepts a new peer unconditionally,
replacing whatever socket was referenced before (replace policy on accept);
but the policy is not applied consistently: every socket's close handler —
that of an already-replaced old peer included — unconditionally flips the
live connection to absent and drains every pending request, including
requests in flight on the replacing peer. -/
theorem connection_replacement_inconsistent (s : ServerState) (k : Nat) :
    (step s Event.connection).extensionSocket = some s.socketCount ∧
    (step s (Event.close k)).extensionSocket = none ∧
    (step s (Event.close k)).pendingRequests = [] ∧
    (step s (Event.close k)).results
      = s.results ++ s.pendingRequests.map (fun p => (p.2, disconnectedResult)) :=
  ⟨rfl, rfl, rfl, rfl⟩

/-- C10: the dispatcher performs no validation of the inbound command.  Any
command submitted while an executor is connected — an unknown `action`, a
missing `selector`, anything — has an identifier allocated, a waiter
registered, its fields forwarded verbatim to the executor together with an
`id` field, and nothing delivered to its caller at submission time; and a
registered waiter can only ever be resolved by an inbound message (an
executor-reported success or failure), a connection close (disconnect), or a
timer firing (timeout) — no other kind of event changes a registered
caller's result count, so the relay never eagerly rejects a command. -/
theorem no_validation_commands_forwarded
    (s : ServerState) (cmd : Obj) (k : Nat) (s2 : ServerState) (e : Event) (w : Nat)
    (hconn : s.extensionSocket = some k)
    (hnd : (assocKeys cmd).Nodup)
    (hfresh : ∀ p ∈ s.pendingRequests, p.1 < s.nextUuid)
    (hw : w < s2.nextWaiter) :
    (step s (Event.submit cmd false)).nextUuid = s.nextUuid + 1 ∧
    (step s (Event.submit cmd false)).pendingRequests
      = s.pendingRequests ++ [(s.nextUuid, s.nextWaiter)] ∧
    (step s (Event.submit cmd false)).sent
      = s.sent ++ [outboundMessage s.nextUuid cmd] ∧
    (∀ kv ∈ cmd, assocGet (outboundMessage s.nextUuid cmd) kv.1 = some kv.2) ∧
    (∃ u, assocGet (outboundMessage s.nextUuid cmd) "id" = some u) ∧
    (step s (Event.submit cmd false)).results = s.results ∧
    (countResults (step s2 e).results w ≠ countResults s2.results w →
      (∃ m, e = Event.message m) ∨ (∃ j, e = Event.close j) ∨
        (∃ i, e = Event.timerFire i)) := by
  have hnotmem : s.nextUuid ∉ assocKeys s.pendingRequests := by
    intro hmem
    rcases mem_assocKeys.mp hmem with ⟨u, hu⟩
    exact absurd (hfresh _ hu) (lt_irrefl _)
  refine ⟨?_, ?_, ?_, ?_, ?_, ?_, ?_⟩
  · rw [step_submit_ok s cmd hconn]
  · rw [step_submit_ok s cmd hconn]
    exact assocSet_of_not_mem _ hnotmem
  · rw [step_submit_ok s cmd hconn]
  · rintro ⟨k', v'⟩ hkv
    exact assocGet_foldl_set_of_mem cmd _ hnd hkv
  · by_cases hid : "id" ∈ assocKeys cmd
    · rcases mem_assocKeys.mp hid with ⟨u, hu⟩
      exact ⟨u, assocGet_foldl_set_of_mem cmd _ hnd hu⟩
    · refine ⟨JVal.n s.nextUuid, ?_⟩
      simp only [outboundMessage]
      rw [assocGet_foldl_set_of_not_mem cmd _ hid]
      rfl
  · rw [step_submit_ok s cmd hconn]
  · intro hne
    cases e with
    | connection => exact absurd rfl hne
    | close j => exact Or.inr (Or.inl ⟨j, rfl⟩)
    | message m => exact Or.inl ⟨m, rfl⟩
    | timerFire i => exact Or.inr (Or.inr ⟨i, rfl⟩)
    | submit cmd' sf' =>
      exfalso
      apply hne
      cases hsock : s2.extensionSocket with
      | none =>
        rw [step_submit_absent s2 cmd' sf' hsock]
        dsimp only
        rw [countResults_append, countResults_singleton, if_neg (by omega)]
        omega
      | some j' =>
        cases sf' with
        | true =>
          rw [step_submit_sendfail s2 cmd' hsock]
          dsimp only
          rw [countResults_append, countResults_singleton, if_neg (by omega)]
          omega
        | false =>
          rw [step_submit_ok s2 cmd' hsock]

/-- Witness for C10: a command with an unknown action and no selector is
still registered and forwarded; a connection event never resolves a
registered waiter. -/
theorem no_validation_commands_forwarded_witness :
    ((run [Event.connection]).extensionSocket = some 0 ∧
     (assocKeys [("action", JVal.s "frobnicate")]).Nodup ∧
     (∀ p ∈ (run [Event.connection]).pendingRequests,
        p.1 < (run [Event.connection]).nextUuid) ∧
     0 < (run [Event.connection,
        Event.submit [("action", JVal.s "frobnicate")] false]).nextWaiter) ∧
    ((step (run [Event.connection])
        (Event.submit [("action", JVal.s "frobnicate")] false)).nextUuid
      = (run [Event.connection]).nextUuid + 1 ∧
     (step (run [Event.connection])
        (Event.submit [("action", JVal.s "frobnicate")] false)).pendingRequests
      = (run [Event.connection]).pendingRequests
          ++ [((run [Event.connection]).nextUuid, (run [Event.connection]).nextWaiter)] ∧
     (step (run [Event.connection])
        (Event.submit [("action", JVal.s "frobnicate")] false)).sent
      = (run [Event.connection]).sent
          ++ [outboundMessage (run [Event.connection]).nextUuid
               [("action", JVal.s "frobnicate")]] ∧
     (∀ kv ∈ [("action", JVal.s "frobnicate")],
        assocGet (outboundMessage (run [Event.connection]).nextUuid
          [("action", JVal.s "frobnicate")]) kv.1 = some kv.2) ∧
     (∃ u, assocGet (outboundMessage (run [Event.connection]).nextUuid
          [("action", JVal.s "frobnicate")]) "id" = some u) ∧
     (step (run [Event.connection])
        (Event.submit [("action", JVal.s "frobnicate")] false)).results
      = (run [Event.connection]).results ∧
     (countResults (step (run [Event.connection,
          Event.submit [("action", JVal.s "frobnicate")] false]) Event.connection).results 0
        ≠ countResults (run [Event.connection,
            Event.submit [("action", JVal.s "frobnicate")] false]).results 0 →
       (∃ m, Event.connection = Event.message m) ∨
         (∃ j, Event.connection = Event.close j) ∨
         (∃ i, Event.connection = Event.timerFire i))) :=
  ⟨⟨by decide, by decide, by decide, by decide⟩,
   no_validation_commands_forwarded (run [Event.connection])
     [("action", JVal.s "frobnicate")] 0
     (run [Event.connection, Event.submit [("action", JVal.s "frobnicate")] false])
     Event.connection 0
     (by decide) (by decide) (by decide) (by decide)⟩

end OllamaBrowl
